import Mathlib

/-!
# Verification of the financial_planner Transaction Store & Aggregation Engine

This file gives a shallow embedding of the transaction store and the
aggregation computations of the repository (src/main.py and
src/generate_data.py) and proves the specification's testable properties
about them.

Modelling conventions:
* The backing CSV file is a `FileModel`: `none` for a missing file, and
  `some lines` for an existing file holding a list of lines, each line
  either a header line (the column names written by
  `TransactionStore.initialize` / `CSV.initialize_csv`) or one data row.
  An empty list of lines models a zero-length file.
* `pd.read_csv` consumes the first line of the file as the column header
  and the remaining lines as data rows; `csvDataRows` models this.
* Amounts are modelled as rationals (the CSV stores decimal text).
* Date strings are parsed by `parseDate`, a model of
  `datetime.strptime(s, "%d-%m-%Y")` (also used by
  `pd.to_datetime(..., format="%d-%m-%Y", errors="coerce")`): day and
  month of one or two digits, a four-digit year, and calendar validity
  including leap years; chronological comparison of parsed dates agrees
  with comparison of `Date.key`.
* `sort_values` runs pandas' default `kind='quicksort'`, which is not
  stable, so the order of entries with equal keys is unspecified.  Where
  a theorem depends only on the output being a sorted permutation
  (loading), the model picks one admissible output
  (`List.insertionSort`); where tie order could matter (the cumulative
  balance, the descending breakdown sorts) the sort is modelled
  relationally by `sortValuesOut`: any sorted permutation of the input.
* `groupby(key)` (default `sort=True`) groups with keys in ascending
  code-point order, modelled by `charsLe` on the key strings;
  deterministic, because group keys are distinct.
-/

namespace FinancePlanner

/-! ## Calendar dates -/

/-- A parsed calendar date (what a `datetime`/`Timestamp` value carries of
`%d-%m-%Y` data). -/
structure Date where
  year : Nat
  month : Nat
  day : Nat
deriving DecidableEq, Repr

/-- Numeric key whose `Nat` order coincides with chronological order of
valid dates. -/
def Date.key (d : Date) : Nat := d.year * 10000 + d.month * 100 + d.day

/-- Gregorian leap-year rule, as used by Python's `datetime` validation. -/
def isLeapYear (y : Nat) : Bool :=
  y % 4 == 0 && (y % 100 != 0 || y % 400 == 0)

/-- Number of days of month `m` of year `y` (Python `calendar`/`datetime`
validation). -/
def daysInMonth (m y : Nat) : Nat :=
  if m = 2 then (if isLeapYear y then 29 else 28)
  else if m = 4 ∨ m = 6 ∨ m = 9 ∨ m = 11 then 30
  else 31

/-- Split a character list at every dash, keeping empty segments: the
shape of matching the literal dashes of the format `%d-%m-%Y`. -/
def splitDash : List Char → List (List Char)
  | [] => [[]]
  | c :: rest =>
    let r := splitDash rest
    if c = '-' then [] :: r
    else
      match r with
      | [] => [[c]]
      | g :: gs => (c :: g) :: gs

/-- Read a nonempty all-digit character list as a `Nat`, else fail. -/
def digitsToNat (cs : List Char) : Option Nat :=
  if !cs.isEmpty && cs.all Char.isDigit then
    some (cs.foldl (fun n c => 10 * n + (c.toNat - 48)) 0)
  else none

/-- Model of `datetime.strptime(s, "%d-%m-%Y")` on the characters of `s`:
day and month of one or two digits, exactly four year digits, and
construction of the `datetime` validates the calendar date (month 1-12,
day within the month, year at least 1). Returns `none` where Python
raises `ValueError` (which `pd.to_datetime(errors="coerce")` turns into
`NaT`). -/
def parseDateChars (cs : List Char) : Option Date :=
  match splitDash cs with
  | [ds, ms, ys] =>
    match digitsToNat ds, digitsToNat ms, digitsToNat ys with
    | some d, some m, some y =>
      if ds.length ≤ 2 ∧ ms.length ≤ 2 ∧ ys.length = 4 ∧
          1 ≤ d ∧ 1 ≤ m ∧ m ≤ 12 ∧ 1 ≤ y ∧ d ≤ daysInMonth m y then
        some ⟨y, m, d⟩
      else none
    | _, _, _ => none
  | _ => none

/-- Parse a date string in `%d-%m-%Y` format (`DATE_FORMAT` of
src/main.py, `CSV.FORMAT` of src/generate_data.py). -/
def parseDate (s : String) : Option Date := parseDateChars s.data

/-! ## Code-point order on strings

Python compares strings (and pandas sorts `groupby` keys) by code-point
lexicographic order; `charsLe` is that order on the character lists. -/

/-- Boolean code-point lexicographic order on character lists. -/
def charsLe : List Char → List Char → Bool
  | [], _ => true
  | _ :: _, [] => false
  | a :: as, b :: bs =>
    if a.toNat < b.toNat then true
    else if b.toNat < a.toNat then false
    else charsLe as bs

/-- Code-point lexicographic order on strings. -/
def strLe (a b : String) : Prop := charsLe a.data b.data = true

instance : DecidableRel strLe := fun a b =>
  inferInstanceAs (Decidable (charsLe a.data b.data = true))

/-! ## The backing file -/

/-- One line of the backing CSV file. -/
inductive Line where
  | header (cols : List String)
  | row (date : String) (amount : ℚ) (category : String) (description : String)
deriving DecidableEq, Repr

/-- The backing file: `none` when missing, otherwise its list of lines
(`some []` models an existing zero-length file). -/
abbrev FileModel := Option (List Line)

/-- Column header written on initialization (`self.columns` /
`CSV.COLUMNS`). -/
def headerCols : List String := ["date", "amount", "category", "description"]

/-- The lines of the file, empty when the file is missing. -/
def linesOf : FileModel → List Line
  | none => []
  | some ls => ls

/-- One raw data row of the file, fields as stored. -/
structure RawRow where
  date : String
  amount : ℚ
  category : String
  description : String
deriving DecidableEq, Repr

/-- A loaded transaction: the row with its date parsed
(`get_transactions_df` output row). -/
structure Transaction where
  date : Date
  amount : ℚ
  category : String
  description : String
deriving DecidableEq, Repr

/-! ## The transaction store (src/main.py `TransactionStore`,
src/generate_data.py `CSV`) -/

/-- Model of `TransactionStore.initialize` (src/main.py lines 46-50) and
`CSV.initialize_csv` (src/generate_data.py lines 21-25): when the file is
missing or has zero length, write the empty DataFrame with the four
columns, i.e. exactly the header line; otherwise leave the file alone. -/
def ensureInitialized (f : FileModel) : FileModel :=
  match f with
  | none => some [Line.header headerCols]
  | some [] => some [Line.header headerCols]
  | some ls => some ls

/-- Model of `TransactionStore.add_entry` (src/main.py lines 52-62):
open the file in append mode (creating it when missing) and write the
single row; no header is written, no validation is performed, and the
call always succeeds. -/
def add_entry (f : FileModel) (date : String) (amount : ℚ)
    (category description : String) : FileModel :=
  some (linesOf f ++ [Line.row date amount category description])

/-- Model of `pd.read_csv` applied to the backing file: the first line is
consumed as the column header, every following data line is one row. -/
def csvDataRows (f : FileModel) : List RawRow :=
  ((linesOf f).drop 1).filterMap fun l =>
    match l with
    | Line.header _ => none
    | Line.row d a c ds => some ⟨d, a, c, ds⟩

/-- `pd.to_datetime(..., errors="coerce")` followed by
`dropna(subset=["date"])` on one row: keep the row with its parsed date,
or drop it. -/
def parseRow (r : RawRow) : Option Transaction :=
  (parseDate r.date).map fun d => ⟨d, r.amount, r.category, r.description⟩

/-- The date order used by `sort_values("date")` on parsed dates. -/
def dateLe (a b : Transaction) : Prop := a.date.key ≤ b.date.key

instance : DecidableRel dateLe := fun a b =>
  inferInstanceAs (Decidable (a.date.key ≤ b.date.key))

instance : IsTotal Transaction dateLe :=
  ⟨fun a b => Nat.le_total a.date.key b.date.key⟩

instance : IsTrans Transaction dateLe := ⟨fun _ _ _ => Nat.le_trans⟩

/-- The boolean mask `(df["date"] >= start) & (df["date"] <= end)`. -/
def inRange (s e : Date) (t : Transaction) : Bool :=
  decide (s.key ≤ t.date.key) && decide (t.date.key ≤ e.key)

/-- Python truthiness of the optional date-bound arguments: `None` and
the empty string are falsy in `if start_date and end_date:`. -/
def truthy : Option String → Bool
  | none => false
  | some s => !(s == "")

/-- Model of `TransactionStore.get_transactions_df` (src/main.py lines
64-81) and `CSV.get_transactions_df` (src/generate_data.py lines 28-44):
initialize the file, read it, return the empty frame early when there are
no data rows, parse dates with `errors="coerce"` and drop failures, when
both bounds are truthy parse them with `strptime` (`none` models the
`ValueError` it raises on a malformed bound) and keep rows inside the
inclusive range, and return the result sorted ascending by date. -/
def get_transactions_df (f : FileModel) (start_date end_date : Option String) :
    Option (List Transaction) :=
  let raw := csvDataRows (ensureInitialized f)
  if raw.isEmpty then some []
  else
    let parsed := raw.filterMap parseRow
    if truthy start_date && truthy end_date then
      match parseDate (start_date.getD ""), parseDate (end_date.getD "") with
      | some ds, some de =>
        some (List.insertionSort dateLe (parsed.filter (inRange ds de)))
      | _, _ => none
    else some (List.insertionSort dateLe parsed)

/-- `df[df["category"] == Category.INCOME.value]["amount"].sum()`
(src/main.py line 93, src/generate_data.py line 411). -/
def totalIncome (l : List Transaction) : ℚ :=
  ((l.filter fun t => t.category == "Income").map fun t => t.amount).sum

/-- `df[df["category"] == Category.EXPENSE.value]["amount"].sum()`
(src/main.py line 94, src/generate_data.py line 412). -/
def totalExpense (l : List Transaction) : ℚ :=
  ((l.filter fun t => t.category == "Expense").map fun t => t.amount).sum

/-! ## Aggregation computations -/

/-- An admissible result of `sort_values` under pandas' default
`kind='quicksort'`: some permutation of the input that is sorted by the
comparison; the relative order of entries with equal keys is left
unspecified, because the default quicksort is documented as not
stable. -/
def sortValuesOut (r : α → α → Prop) (l out : List α) : Prop :=
  out.Perm l ∧ out.Pairwise r

/-- The sort relation of `sort_values("amount", ascending=False)` on the
grouped `(description, total)` table. -/
def descAmt (x y : String × ℚ) : Prop := y.2 ≤ x.2

instance : DecidableRel descAmt := fun x y =>
  inferInstanceAs (Decidable (y.2 ≤ x.2))

/-- Model of `df.groupby(key)["amount"].sum().reset_index()`: one
`(key, total)` pair per distinct key value of the input, the keys in
ascending code-point order (pandas `groupby` defaults to `sort=True`,
deterministic because the keys are distinct). -/
def groupSum (key : Transaction → String) (l : List Transaction) :
    List (String × ℚ) :=
  (List.insertionSort strLe ((l.map key).dedup)).map fun k =>
    (k, ((l.filter fun t => key t == k).map fun t => t.amount).sum)

/-- `df.groupby("category")["amount"].sum().reset_index()` — the
category-totals table of `Visualizer.income_vs_expense_bar` (src/main.py
lines 106-122) and of the dashboards. -/
def categoryTotals (l : List Transaction) : List (String × ℚ) :=
  groupSum (fun t => t.category) l

/-- The grouped description table of `Visualizer.category_pie_chart`
(src/main.py lines 163-181): filter to one category, group by
description and sum. That function draws the pie directly from this
table — it performs no sort by total and no truncation. The same table
is the `by_desc` intermediate of `Visualizer.expense_breakdown_pie`
(src/generate_data.py lines 250-255, with `cat = "Expense"`) and of the
top-expense ranking of `print_summary` (line 436). -/
def category_pie_chart (cat : String) (l : List Transaction) :
    List (String × ℚ) :=
  groupSum (fun t => t.description) (l.filter fun t => t.category == cat)

/-- An admissible result of `Visualizer.expense_breakdown_pie`
(src/generate_data.py lines 244-266): the grouped expense table sorted
descending by total (tie order unspecified, default quicksort), then
truncated by `head(10)`. -/
def expense_breakdown_pie_out (l : List Transaction)
    (out : List (String × ℚ)) : Prop :=
  ∃ s, sortValuesOut descAmt (category_pie_chart "Expense" l) s
    ∧ out = s.take 10

/-- An admissible top-5 expense ranking of `print_summary`
(src/generate_data.py line 436): `head(5)` of the same descending
sort. -/
def top_expenses_out (l : List Transaction)
    (out : List (String × ℚ)) : Prop :=
  ∃ s, sortValuesOut descAmt (category_pie_chart "Expense" l) s
    ∧ out = s.take 5

/-- The signed contribution of one row:
`df["amount"].where(df["category"] == Category.INCOME.value, -df["amount"])`
(src/main.py lines 188-190), equally the `apply` lambda of
src/generate_data.py lines 275-278. -/
def signedAmount (t : Transaction) : ℚ :=
  if t.category = "Income" then t.amount else -t.amount

/-- `Series.cumsum()` with running accumulator `acc`. -/
def cumsumFrom (acc : ℚ) : List ℚ → List ℚ
  | [] => []
  | a :: rest => (acc + a) :: cumsumFrom (acc + a) rest

/-- Model of the body of `Visualizer.cumulative_savings` (src/main.py
lines 183-191, src/generate_data.py lines 268-279) after its
`sort_values("date")` call: pair each row of the sorted frame `s` with
the running sum of the signed amounts up to and including it. The sort
itself is modelled by `sortValuesOut dateLe` in the theorems, because
the default quicksort leaves the order of equal dates unspecified. -/
def cumulative_savings (s : List Transaction) : List (Transaction × ℚ) :=
  s.zip (cumsumFrom 0 (s.map signedAmount))

/-- The figures computed by `print_summary` (src/generate_data.py lines
405-416), the spec's `net_summary`. -/
structure Summary where
  income : ℚ
  expense : ℚ
  net : ℚ
  count : Nat
  dateRange : Option (Date × Date)
deriving DecidableEq, Repr

/-- Model of the computations of `print_summary` (src/generate_data.py
lines 405-416): total income, total expense, net savings, transaction
count and the min/max date range, the latter undefined (`none`) on an
empty record set (the guard at line 407 returns before
`df["date"].min()` is reached there). -/
def net_summary (l : List Transaction) : Summary where
  income := totalIncome l
  expense := totalExpense l
  net := totalIncome l - totalExpense l
  count := l.length
  dateRange :=
    match l with
    | [] => none
    | t :: ts =>
      some (ts.foldl (fun acc u => if u.date.key < acc.key then u.date else acc) t.date,
            ts.foldl (fun acc u => if acc.key < u.date.key then u.date else acc) t.date)

/-- Model of `get_amount` (src/main.py lines 320-328) over the successive
interactive inputs: `none` is an input `float()` fails to parse, `some a`
an input parsing to `a`.  An amount `a ≤ 0` raises
`ValueError("Amount must be positive.")`, which the surrounding
`try/except` catches before re-prompting; the first positive parsed
amount is returned.  The real loop re-prompts forever; the model returns
`none` when the supplied input list is exhausted. -/
def get_amount : List (Option ℚ) → Option ℚ
  | [] => none
  | none :: rest => get_amount rest
  | some a :: rest => if a ≤ 0 then get_amount rest else some a

/-! ## Basic lemmas about the code-point order -/

theorem charsLe_cons (a b : Char) (as bs : List Char) :
    charsLe (a :: as) (b :: bs) =
      if a.toNat < b.toNat then true
      else if b.toNat < a.toNat then false
      else charsLe as bs := rfl

theorem charsLe_cons_iff (a b : Char) (as bs : List Char) :
    charsLe (a :: as) (b :: bs) = true ↔
      (a.toNat < b.toNat ∨ (a.toNat = b.toNat ∧ charsLe as bs = true)) := by
  rw [charsLe_cons]
  split_ifs with h1 h2
  · simp [h1]
  · simp only [Bool.false_eq_true, false_iff]
    push_neg
    constructor
    · omega
    · intro h; omega
  · have h3 : a.toNat = b.toNat := by omega
    simp [h3]

theorem charsLe_total : ∀ (as bs : List Char),
    charsLe as bs = true ∨ charsLe bs as = true
  | [], _ => Or.inl rfl
  | _ :: _, [] => Or.inr rfl
  | a :: as, b :: bs => by
    rcases Nat.lt_trichotomy a.toNat b.toNat with h | h | h
    · exact Or.inl ((charsLe_cons_iff a b as bs).mpr (Or.inl h))
    · rcases charsLe_total as bs with h' | h'
      · exact Or.inl ((charsLe_cons_iff a b as bs).mpr (Or.inr ⟨h, h'⟩))
      · exact Or.inr ((charsLe_cons_iff b a bs as).mpr (Or.inr ⟨h.symm, h'⟩))
    · exact Or.inr ((charsLe_cons_iff b a bs as).mpr (Or.inl h))

theorem charsLe_trans : ∀ {as bs cs : List Char},
    charsLe as bs = true → charsLe bs cs = true → charsLe as cs = true
  | [], _, _, _, _ => rfl
  | _ :: _, [], _, hab, _ => by simp [charsLe] at hab
  | _ :: _, _ :: _, [], _, hbc => by simp [charsLe] at hbc
  | a :: as, b :: bs, c :: cs, hab, hbc => by
    rw [charsLe_cons_iff] at hab hbc ⊢
    rcases hab with h1 | ⟨h1, h1t⟩ <;> rcases hbc with h2 | ⟨h2, h2t⟩
    · exact Or.inl (by omega)
    · exact Or.inl (by omega)
    · exact Or.inl (by omega)
    · exact Or.inr ⟨by omega, charsLe_trans h1t h2t⟩

instance : IsTotal String strLe := ⟨fun a b => charsLe_total a.data b.data⟩

instance : IsTrans String strLe := ⟨fun _ _ _ hab hbc => charsLe_trans hab hbc⟩

/-! ## Lemmas about loading -/

theorem parseDate_empty : parseDate "" = none := rfl

theorem truthy_of_parse {s : String} {d : Date} (h : parseDate s = some d) :
    truthy (some s) = true := by
  have hne : s ≠ "" := by
    intro he
    rw [he, parseDate_empty] at h
    exact Option.noConfusion h
  simp [truthy, hne]

/-- With both bounds given and parsable, `get_transactions_df` returns the
sorted, range-filtered list of rows whose dates parse. -/
theorem load_range_eq (f : FileModel) {s e : String} {ds de : Date}
    (hs : parseDate s = some ds) (he : parseDate e = some de) :
    get_transactions_df f (some s) (some e) =
      some (List.insertionSort dateLe
        (((csvDataRows (ensureInitialized f)).filterMap parseRow).filter
          (inRange ds de))) := by
  unfold get_transactions_df
  by_cases hraw : (csvDataRows (ensureInitialized f)).isEmpty
  · have h0 : csvDataRows (ensureInitialized f) = [] := by
      simpa [List.isEmpty_iff] using hraw
    simp [hraw, h0]
  · simp [hraw, truthy_of_parse hs, truthy_of_parse he, hs, he]

/-- With no bounds given, `get_transactions_df` returns the sorted list of
all rows whose dates parse. -/
theorem load_none_eq (f : FileModel) :
    get_transactions_df f none none =
      some (List.insertionSort dateLe
        ((csvDataRows (ensureInitialized f)).filterMap parseRow)) := by
  unfold get_transactions_df
  by_cases hraw : (csvDataRows (ensureInitialized f)).isEmpty
  · have h0 : csvDataRows (ensureInitialized f) = [] := by
      simpa [List.isEmpty_iff] using hraw
    simp [hraw, h0]
  · simp [hraw, truthy]

/-- Appending to an existing non-empty file adds exactly one data row at
the end of what `read_csv` sees. -/
theorem csvDataRows_add_entry (x : Line) (xs : List Line) (d : String)
    (a : ℚ) (c dsc : String) :
    csvDataRows (ensureInitialized (add_entry (some (x :: xs)) d a c dsc)) =
      csvDataRows (ensureInitialized (some (x :: xs))) ++ [⟨d, a, c, dsc⟩] := by
  simp [add_entry, ensureInitialized, csvDataRows, linesOf]

/-! ## Lemmas about grouped sums -/

theorem sum_map_ite (q : ℚ) (a : String) :
    ∀ (ks : List String), ks.Nodup → a ∈ ks →
      (ks.map fun k => if a = k then q else 0).sum = q := by
  intro ks
  induction ks with
  | nil => intro _ h; exact absurd h (List.not_mem_nil a)
  | cons k ks ih =>
    intro hnd hmem
    rcases List.nodup_cons.mp hnd with ⟨hk, hnd'⟩
    rcases List.mem_cons.mp hmem with rfl | hmem'
    · have hz : (ks.map fun k => if a = k then q else 0).sum = 0 := by
        apply List.sum_eq_zero
        intro x hx
        rcases List.mem_map.mp hx with ⟨k', hk', rfl⟩
        refine if_neg fun h => hk ?_
        rw [h]
        exact hk'
      simp only [List.map_cons, List.sum_cons, hz, add_zero, if_pos]
    · have hne : a ≠ k := fun h => hk (h ▸ hmem')
      simp only [List.map_cons, List.sum_cons, if_neg hne]
      rw [ih hnd' hmem', zero_add]

theorem sum_map_add_fun (f g : String → ℚ) (ks : List String) :
    (ks.map fun k => f k + g k).sum = (ks.map f).sum + (ks.map g).sum := by
  induction ks with
  | nil => simp
  | cons k ks ih => simp only [List.map_cons, List.sum_cons, ih]; ring

/-- Summing the per-fiber sums over a duplicate-free list of keys that
covers every row gives the total sum of the amounts. -/
theorem sum_fibers (key : Transaction → String) :
    ∀ (l : List Transaction) (ks : List String), ks.Nodup →
      (∀ t ∈ l, key t ∈ ks) →
      (ks.map fun k =>
        ((l.filter fun t => key t == k).map fun t => t.amount).sum).sum
        = (l.map fun t => t.amount).sum := by
  intro l
  induction l with
  | nil =>
    intro ks _ _
    simp only [List.filter_nil, List.map_nil, List.sum_nil]
    exact List.sum_eq_zero fun x hx => by
      rcases List.mem_map.mp hx with ⟨_, _, rfl⟩; rfl
  | cons t l ih =>
    intro ks hnd hcov
    have hstep : (ks.map fun k =>
        (((t :: l).filter fun u => key u == k).map fun u => u.amount).sum)
        = ks.map fun k => (if key t = k then t.amount else 0)
            + ((l.filter fun u => key u == k).map fun u => u.amount).sum := by
      apply List.map_congr_left
      intro k _
      by_cases h : key t = k
      · simp [List.filter_cons, h]
      · simp [List.filter_cons, h]
    rw [hstep, sum_map_add_fun,
      sum_map_ite t.amount (key t) ks hnd (hcov t (List.mem_cons_self t l)),
      ih ks hnd fun u hu => hcov u (List.mem_cons_of_mem t hu)]
    simp

/-! ## Lemmas about running sums -/

theorem cumsumFrom_length (acc : ℚ) (xs : List ℚ) :
    (cumsumFrom acc xs).length = xs.length := by
  induction xs generalizing acc with
  | nil => rfl
  | cons a rest ih => simp [cumsumFrom, ih]

theorem cumsumFrom_getElem : ∀ (xs : List ℚ) (acc : ℚ) (i : Nat)
    (h : i < (cumsumFrom acc xs).length),
    (cumsumFrom acc xs)[i] = acc + (xs.take (i + 1)).sum
  | [], acc, i, h => by simp [cumsumFrom] at h
  | a :: rest, acc, 0, h => by simp [cumsumFrom]
  | a :: rest, acc, i + 1, h => by
    have h' : i < (cumsumFrom (acc + a) rest).length := by
      simpa [cumsumFrom] using h
    show (cumsumFrom (acc + a) rest)[i] = _
    rw [cumsumFrom_getElem rest (acc + a) i h']
    simp only [List.take_succ_cons, List.sum_cons]
    ring

/-- The grouped table has pairwise strictly ascending keys. -/
theorem groupSum_keys_pairwise (key : Transaction → String)
    (l : List Transaction) :
    (groupSum key l).Pairwise fun x y => strLe x.1 y.1 ∧ x.1 ≠ y.1 := by
  unfold groupSum
  rw [List.pairwise_map]
  have hs : (List.insertionSort strLe ((l.map key).dedup)).Pairwise strLe :=
    List.sorted_insertionSort strLe _
  have hn : (List.insertionSort strLe ((l.map key).dedup)).Nodup :=
    ((List.perm_insertionSort strLe _).nodup_iff).mpr (List.nodup_dedup _)
  exact hs.and hn

/-- The rows of the cumulative table are exactly the sorted frame it was
built from. -/
theorem cumulative_savings_fst (s : List Transaction) :
    (cumulative_savings s).map Prod.fst = s :=
  List.map_fst_zip _ _ (by rw [cumsumFrom_length, List.length_map])

/-- A date-sorted permutation of a list whose dates are strictly
increasing is that list itself: with no tied keys, the sort output is
unique, whatever the tie-breaking of the sorting algorithm. -/
theorem eq_of_perm_of_sorted_strict :
    ∀ (l s : List Transaction),
      l.Pairwise (fun a b => a.date.key < b.date.key) →
      s.Perm l → s.Pairwise dateLe → s = l := by
  intro l
  induction l with
  | nil =>
    intro s _ hp _
    exact List.perm_nil.mp hp
  | cons a l' ih =>
    intro s hstrict hp hsort
    obtain ⟨b, s', rfl⟩ : ∃ b s', s = b :: s' := by
      cases s with
      | nil =>
        have hlen := hp.length_eq
        simp at hlen
      | cons b s' => exact ⟨b, s', rfl⟩
    have hb : b = a := by
      by_contra hne
      have hbmem : b ∈ a :: l' := hp.mem_iff.mp (List.mem_cons_self b s')
      have hbl' : b ∈ l' := by
        rcases List.mem_cons.mp hbmem with h | h
        · exact absurd h hne
        · exact h
      have h1 : a.date.key < b.date.key :=
        (List.pairwise_cons.mp hstrict).1 b hbl'
      have hamem : a ∈ b :: s' := hp.mem_iff.mpr (List.mem_cons_self a l')
      have has' : a ∈ s' := by
        rcases List.mem_cons.mp hamem with h | h
        · exact absurd h.symm hne
        · exact h
      have h2 : dateLe b a := (List.pairwise_cons.mp hsort).1 a has'
      exact absurd h1 (not_lt.mpr h2)
    subst hb
    rw [ih s' (List.pairwise_cons.mp hstrict).2 hp.cons_inv
      (List.pairwise_cons.mp hsort).2]

/-! ## The claims -/

/-- C1: for every backing file and pair of parsable date bounds,
`get_transactions_df` returns exactly the stored rows whose date field
parses in day-month-year format (unparsable dates are dropped, not an
error), restricted to `start ≤ date ≤ end` inclusive on both ends, and
the result is sorted ascending by date. -/
theorem c1_load_filters_and_sorts :
    (∀ (f : FileModel) (s e : String) (ds de : Date),
        parseDate s = some ds → parseDate e = some de →
        ∃ res, get_transactions_df f (some s) (some e) = some res
          ∧ res.Perm (((csvDataRows (ensureInitialized f)).filterMap
              parseRow).filter (inRange ds de))
          ∧ List.Sorted dateLe res)
    ∧ (∀ f : FileModel,
        ∃ res, get_transactions_df f none none = some res
          ∧ res.Perm ((csvDataRows (ensureInitialized f)).filterMap parseRow)
          ∧ List.Sorted dateLe res) :=
  ⟨fun f _ _ _ _ hs he =>
    ⟨_, load_range_eq f hs he, List.perm_insertionSort dateLe _,
      List.sorted_insertionSort dateLe _⟩,
   fun f =>
    ⟨_, load_none_eq f, List.perm_insertionSort dateLe _,
      List.sorted_insertionSort dateLe _⟩⟩

/-- C1 witness: a concrete file holding one in-range row, one row with an
unparsable date and one out-of-range row, loaded over December 2025. -/
theorem c1_witness :
    ∃ res, get_transactions_df
        (some [Line.header headerCols,
               Line.row "19-12-2025" 5 "Expense" "Coffee",
               Line.row "bad-date" 3 "Expense" "X",
               Line.row "01-01-2026" 2 "Income" "Y"])
        (some "01-12-2025") (some "31-12-2025") = some res
      ∧ res.Perm (((csvDataRows (ensureInitialized
            (some [Line.header headerCols,
                   Line.row "19-12-2025" 5 "Expense" "Coffee",
                   Line.row "bad-date" 3 "Expense" "X",
                   Line.row "01-01-2026" 2 "Income" "Y"]))).filterMap
          parseRow).filter (inRange ⟨2025, 12, 1⟩ ⟨2025, 12, 31⟩))
      ∧ List.Sorted dateLe res :=
  c1_load_filters_and_sorts.1 _ "01-12-2025" "31-12-2025"
    ⟨2025, 12, 1⟩ ⟨2025, 12, 31⟩ rfl rfl

/-- C2 counterexample: `add_entry` with `amount = -5 ≤ 0` does not fail
with a `ValidationError` — it appends the row and returns successfully
(the model of `add_entry` is total and returns the extended file). -/
theorem c2_counterexample :
    (-5 : ℚ) ≤ 0
    ∧ add_entry (some [Line.header headerCols]) "19-12-2025" (-5) "Expense" "Lunch"
        = some [Line.header headerCols,
                Line.row "19-12-2025" (-5) "Expense" "Lunch"] :=
  ⟨by norm_num, rfl⟩

/-- C2 amended: `add_entry` itself performs no validation and appends
exactly one row for every input, returning successfully; the amount
`≤ 0` rejection lives in the shell's `get_amount`, which raises and
catches `ValueError` to re-prompt, so any amount it returns is
positive. -/
theorem c2_amended :
    (∀ (f : FileModel) (d : String) (a : ℚ) (c dsc : String),
        (add_entry f d a c dsc).isSome = true
        ∧ linesOf (add_entry f d a c dsc) = linesOf f ++ [Line.row d a c dsc])
    ∧ (∀ (inputs : List (Option ℚ)) (a : ℚ),
        get_amount inputs = some a → 0 < a) := by
  constructor
  · intro f d a c dsc
    exact ⟨rfl, rfl⟩
  · intro inputs
    induction inputs with
    | nil =>
      intro a h
      simp [get_amount] at h
    | cons x rest ih =>
      intro a h
      match x with
      | none => exact ih a h
      | some b =>
        rw [get_amount] at h
        by_cases hb : b ≤ 0
        · rw [if_pos hb] at h
          exact ih a h
        · rw [if_neg hb] at h
          cases h
          exact not_le.mp hb

/-- C2 witness: `add_entry` succeeds at a concrete input, and
`get_amount` on the attempts `-3`, unparsable, `7` returns `7 > 0`. -/
theorem c2_witness :
    (add_entry none "01-01-2024" 3 "Income" "").isSome = true ∧ (0 : ℚ) < 7 :=
  ⟨(c2_amended.1 none "01-01-2024" 3 "Income" "").1,
   c2_amended.2 [some (-3), none, some 7] 7 (by decide)⟩

/-- C8: the empty record set is a valid input everywhere: load on a
freshly initialized header-only file returns the empty set, and
`net_summary` of the empty set has zero income, zero expense, zero net,
zero count and an undefined (`none`) date range; the other aggregations
of the empty set are the empty table. -/
theorem c8_empty_input_ok :
    get_transactions_df (ensureInitialized none) none none = some []
    ∧ net_summary [] = ⟨0, 0, 0, 0, none⟩
    ∧ categoryTotals [] = []
    ∧ category_pie_chart "Expense" [] = []
    ∧ (∀ out, expense_breakdown_pie_out [] out → out = [])
    ∧ cumulative_savings [] = [] := by
  refine ⟨rfl, by simp [net_summary, totalIncome, totalExpense], rfl, rfl,
    ?_, rfl⟩
  rintro out ⟨s, ⟨hperm, _⟩, rfl⟩
  have hs : s = [] := List.perm_nil.mp hperm
  rw [hs, List.take_nil]

/-- C9: `initialize` is idempotent: a missing or zero-length backing file
becomes exactly the header line `date, amount, category, description`
with no data rows; an existing non-empty file is left unchanged; the
model is a total function, so repeated calls never raise and the second
call adds nothing. -/
theorem c9_initialize_idempotent :
    (∀ f : FileModel, ensureInitialized (ensureInitialized f) = ensureInitialized f)
    ∧ ensureInitialized none = some [Line.header headerCols]
    ∧ ensureInitialized (some []) = some [Line.header headerCols]
    ∧ (∀ ls : List Line, ls ≠ [] → ensureInitialized (some ls) = some ls) := by
  refine ⟨?_, rfl, rfl, ?_⟩
  · intro f
    match f with
    | none => rfl
    | some [] => rfl
    | some (x :: xs) => rfl
  · intro ls h
    match ls, h with
    | x :: xs, _ => rfl

/-- C9 witness: a non-empty (header-only) file is left unchanged. -/
theorem c9_witness :
    ensureInitialized (some [Line.header headerCols])
      = some [Line.header headerCols] :=
  c9_initialize_idempotent.2.2.2 [Line.header headerCols] (by simp)

/-- C10: `add_entry` on a missing backing file creates the file holding
just the single data row — no header row is written, the first line of
the file is the transaction itself — and in general `add_entry` only
ever appends its one row, never initializing the file. -/
theorem c10_add_entry_writes_no_header :
    ∀ (d : String) (a : ℚ) (c dsc : String),
      add_entry none d a c dsc = some [Line.row d a c dsc]
      ∧ (∀ cols, Line.header cols ∉ linesOf (add_entry none d a c dsc))
      ∧ (∀ f : FileModel,
          linesOf (add_entry f d a c dsc) = linesOf f ++ [Line.row d a c dsc]) := by
  intro d a c dsc
  refine ⟨rfl, ?_, fun f => rfl⟩
  intro cols h
  simp [add_entry, linesOf] at h

/-- C4: the `category_totals` aggregation (group by category, sum
amounts) keys exactly the categories occurring in the input — no foreign
category appears — and the totals sum to the sum of all input amounts. -/
theorem c4_category_totals (l : List Transaction) :
    (∀ k, k ∈ (categoryTotals l).map Prod.fst ↔ k ∈ l.map fun t => t.category)
    ∧ ((categoryTotals l).map Prod.snd).sum = (l.map fun t => t.amount).sum := by
  constructor
  · intro k
    unfold categoryTotals groupSum
    simp [List.mem_map, List.mem_insertionSort, List.mem_dedup]
  · unfold categoryTotals groupSum
    rw [List.map_map]
    have hnd : (List.insertionSort strLe
        ((l.map fun t => t.category).dedup)).Nodup :=
      ((List.perm_insertionSort strLe _).nodup_iff).mpr (List.nodup_dedup _)
    have hcov : ∀ t ∈ l, t.category ∈
        List.insertionSort strLe ((l.map fun t => t.category).dedup) := by
      intro t ht
      rw [List.mem_insertionSort, List.mem_dedup]
      exact List.mem_map.mpr ⟨t, ht, rfl⟩
    exact sum_fibers (fun t => t.category) l _ hnd hcov

/-- The grouped expense table of two tied-total rows encountered in the
order "b", "a": `groupby` orders the groups alphabetically. -/
theorem expense_table_tied :
    category_pie_chart "Expense"
        [⟨⟨2025, 1, 1⟩, 5, "Expense", "b"⟩, ⟨⟨2025, 1, 2⟩, 5, "Expense", "a"⟩]
      = [("a", 5), ("b", 5)] := by
  simp [category_pie_chart, groupSum, List.insertionSort,
    List.orderedInsert, strLe, charsLe, List.dedup, List.filter]

/-- The grouped expense table of an "a"-small, "b"-large input:
alphabetical group order, so not descending by total. -/
theorem expense_table_unsorted :
    category_pie_chart "Expense"
        [⟨⟨2025, 1, 1⟩, 1, "Expense", "a"⟩, ⟨⟨2025, 1, 2⟩, 5, "Expense", "b"⟩]
      = [("a", 1), ("b", 5)] := by
  simp [category_pie_chart, groupSum, List.insertionSort,
    List.orderedInsert, strLe, charsLe, List.dedup, List.filter]

/-- C6 counterexample: the claim fails on both cited implementations.
For two expense rows of equal total with descriptions encountered in the
order "b", "a", the admissible `expense_breakdown_pie` run that keeps
the grouped (alphabetical) order returns "a" before "b": entries with
equal totals are not kept in original encounter order, which `groupby`
has already discarded. And `category_pie_chart` (src/main.py lines
163-181) returns its groups alphabetically without sorting at all: on an
input whose totals are 1 for "a" and 5 for "b" its table is not
descending by total. -/
theorem c6_counterexample :
    (∃ out, expense_breakdown_pie_out
        [⟨⟨2025, 1, 1⟩, 5, "Expense", "b"⟩, ⟨⟨2025, 1, 2⟩, 5, "Expense", "a"⟩]
        out
      ∧ out.map Prod.fst ≠ ["b", "a"])
    ∧ category_pie_chart "Expense"
        [⟨⟨2025, 1, 1⟩, 1, "Expense", "a"⟩, ⟨⟨2025, 1, 2⟩, 5, "Expense", "b"⟩]
      = [("a", 1), ("b", 5)]
    ∧ ¬ (category_pie_chart "Expense"
        [⟨⟨2025, 1, 1⟩, 1, "Expense", "a"⟩,
         ⟨⟨2025, 1, 2⟩, 5, "Expense", "b"⟩]).Pairwise descAmt := by
  refine ⟨⟨[("a", 5), ("b", 5)], ⟨[("a", 5), ("b", 5)], ⟨?_, ?_⟩, rfl⟩, ?_⟩,
    expense_table_unsorted, ?_⟩
  · rw [expense_table_tied]
  · refine List.pairwise_cons.mpr ⟨?_, List.pairwise_singleton _ _⟩
    intro p hp
    rw [List.mem_singleton] at hp
    subst hp
    exact le_refl _
  · decide
  · rw [expense_table_unsorted]
    intro h
    have h2 := (List.pairwise_cons.mp h).1 ("b", 5) (List.mem_singleton.mpr rfl)
    norm_num [descAmt] at h2

/-- C6 amended: the breakdown filters to the category and groups by
description summing amounts, the groups in ascending description order;
`expense_breakdown_pie` and the printed top-5 ranking then sort
descending by total and truncate to at most 10 resp. 5 entries drawn
from the grouped table, with the relative order of equal totals
unspecified (the default quicksort is not stable) — in particular not
the original encounter order, which grouping already discarded;
`category_pie_chart` performs no sort by total and no truncation,
returning the full grouped table in ascending description order. -/
theorem c6_breakdown_amended :
    (∀ (l : List Transaction) (out : List (String × ℚ)),
        expense_breakdown_pie_out l out →
        out.length ≤ 10 ∧ out.Pairwise descAmt
          ∧ ∀ p ∈ out, p ∈ category_pie_chart "Expense" l)
    ∧ (∀ (l : List Transaction) (out : List (String × ℚ)),
        top_expenses_out l out →
        out.length ≤ 5 ∧ out.Pairwise descAmt
          ∧ ∀ p ∈ out, p ∈ category_pie_chart "Expense" l)
    ∧ (∀ (cat : String) (l : List Transaction),
        (category_pie_chart cat l).Pairwise
          fun x y => strLe x.1 y.1 ∧ x.1 ≠ y.1) := by
  refine ⟨?_, ?_, fun cat l => groupSum_keys_pairwise _ _⟩
  · rintro l out ⟨s, ⟨hperm, hsort⟩, rfl⟩
    exact ⟨List.length_take_le 10 _,
      List.Pairwise.sublist (List.take_sublist 10 _) hsort,
      fun p hp => hperm.subset ((List.take_sublist 10 _).subset hp)⟩
  · rintro l out ⟨s, ⟨hperm, hsort⟩, rfl⟩
    exact ⟨List.length_take_le 5 _,
      List.Pairwise.sublist (List.take_sublist 5 _) hsort,
      fun p hp => hperm.subset ((List.take_sublist 5 _).subset hp)⟩

/-- C6 witness: the amended theorem applied to the concrete tied-total
input and the admissible run kept in grouped order. -/
theorem c6_witness :
    ([("a", 5), ("b", 5)] : List (String × ℚ)).length ≤ 10
    ∧ ([("a", 5), ("b", 5)] : List (String × ℚ)).Pairwise descAmt
    ∧ ∀ p ∈ ([("a", 5), ("b", 5)] : List (String × ℚ)),
        p ∈ category_pie_chart "Expense"
          [⟨⟨2025, 1, 1⟩, 5, "Expense", "b"⟩,
           ⟨⟨2025, 1, 2⟩, 5, "Expense", "a"⟩] :=
  c6_breakdown_amended.1
    [⟨⟨2025, 1, 1⟩, 5, "Expense", "b"⟩, ⟨⟨2025, 1, 2⟩, 5, "Expense", "a"⟩]
    [("a", 5), ("b", 5)]
    ⟨[("a", 5), ("b", 5)],
      ⟨by rw [expense_table_tied],
       by
        refine List.pairwise_cons.mpr ⟨?_, List.pairwise_singleton _ _⟩
        intro p hp
        rw [List.mem_singleton] at hp
        subst hp
        exact le_refl _⟩,
      rfl⟩

/-- C3 counterexample: the program does not guarantee "preserves input
order". `sort_values("date")` with the default `kind='quicksort'` leaves
the order of tied dates unspecified, so for a date-sorted input of two
same-date rows the run of `cumulative_savings` over the admissible sort
output with the two rows swapped returns them out of input order. -/
theorem c3_counterexample :
    List.Sorted dateLe
        [⟨⟨2025, 1, 1⟩, 4, "Income", "p"⟩, ⟨⟨2025, 1, 1⟩, 3, "Expense", "q"⟩]
    ∧ sortValuesOut dateLe
        [⟨⟨2025, 1, 1⟩, 4, "Income", "p"⟩, ⟨⟨2025, 1, 1⟩, 3, "Expense", "q"⟩]
        [⟨⟨2025, 1, 1⟩, 3, "Expense", "q"⟩, ⟨⟨2025, 1, 1⟩, 4, "Income", "p"⟩]
    ∧ (cumulative_savings
        [⟨⟨2025, 1, 1⟩, 3, "Expense", "q"⟩,
         ⟨⟨2025, 1, 1⟩, 4, "Income", "p"⟩]).map Prod.fst
      ≠ [⟨⟨2025, 1, 1⟩, 4, "Income", "p"⟩, ⟨⟨2025, 1, 1⟩, 3, "Expense", "q"⟩] := by
  refine ⟨?_, ⟨List.Perm.swap _ _ [], ?_⟩, ?_⟩
  · refine List.pairwise_cons.mpr ⟨?_, List.pairwise_singleton _ _⟩
    intro t ht
    rw [List.mem_singleton] at ht
    subst ht
    exact le_refl _
  · refine List.pairwise_cons.mpr ⟨?_, List.pairwise_singleton _ _⟩
    intro t ht
    rw [List.mem_singleton] at ht
    subst ht
    exact le_refl _
  · rw [cumulative_savings_fst]
    decide

/-- C3 amended: for every record set and every admissible output order
of `sort_values("date")` — a date-sorted permutation of the input, tie
order unspecified — `cumulative_savings` keeps exactly the sorted frame's
rows in its order and pairs each row with a running balance: the first
balance is the first signed amount (`+amount` for `Income`, `-amount`
otherwise) and consecutive balances differ by exactly the signed amount
of the later row; when no two rows share a date, the sorted order of a
date-sorted input is necessarily the input order, so input order is
preserved in that case. -/
theorem c3_cumulative_balance :
    (∀ (l s : List Transaction), sortValuesOut dateLe l s →
        ((cumulative_savings s).map Prod.fst).Perm l
        ∧ List.Sorted dateLe ((cumulative_savings s).map Prod.fst)
        ∧ (∀ p, (cumulative_savings s)[0]? = some p → p.2 = signedAmount p.1)
        ∧ (∀ i p q, (cumulative_savings s)[i]? = some p →
            (cumulative_savings s)[i + 1]? = some q →
            q.2 - p.2 = signedAmount q.1))
    ∧ (∀ (l s : List Transaction),
        l.Pairwise (fun a b => a.date.key < b.date.key) →
        sortValuesOut dateLe l s →
        (cumulative_savings s).map Prod.fst = l) := by
  have hlen : ∀ s : List Transaction,
      (cumsumFrom 0 (s.map signedAmount)).length = s.length := by
    intro s
    rw [cumsumFrom_length, List.length_map]
  constructor
  · rintro l s ⟨hperm, hsort⟩
    refine ⟨?_, ?_, ?_, ?_⟩
    · rw [cumulative_savings_fst]
      exact hperm
    · rw [cumulative_savings_fst]
      exact hsort
    · intro p hp
      rcases List.getElem?_zip_eq_some.mp hp with ⟨hp1, hp2⟩
      rcases List.getElem?_eq_some_iff.mp hp1 with ⟨hb1, he1⟩
      rcases List.getElem?_eq_some_iff.mp hp2 with ⟨hb2, he2⟩
      rw [cumsumFrom_getElem _ _ _ hb2] at he2
      have hb0 : 0 < s.length := hb1
      rw [List.sum_take_succ _ 0 (by simpa using hb0), List.getElem_map] at he2
      rw [← he1, ← he2]
      simp
    · intro i p q hp hq
      rcases List.getElem?_zip_eq_some.mp hp with ⟨hp1, hp2⟩
      rcases List.getElem?_zip_eq_some.mp hq with ⟨hq1, hq2⟩
      rcases List.getElem?_eq_some_iff.mp hp2 with ⟨hb2, he2⟩
      rcases List.getElem?_eq_some_iff.mp hq1 with ⟨hb1, he1⟩
      rcases List.getElem?_eq_some_iff.mp hq2 with ⟨hb3, he3⟩
      have hbx : i + 1 < (s.map signedAmount).length := by
        rw [List.length_map, ← hlen s]
        exact hb3
      rw [cumsumFrom_getElem _ _ _ hb2] at he2
      rw [cumsumFrom_getElem _ _ _ hb3] at he3
      rw [List.sum_take_succ _ (i + 1) hbx, List.getElem_map] at he3
      rw [← he1, ← he2, ← he3]
      simp
  · rintro l s hstrict ⟨hperm, hsort⟩
    rw [cumulative_savings_fst]
    exact eq_of_perm_of_sorted_strict l s hstrict hperm hsort

/-- C3 witness: the amended theorem applied to a concrete record set
with two distinct dates, whose only admissible sort output is itself. -/
theorem c3_witness :
    (cumulative_savings
        [⟨⟨2025, 1, 1⟩, 4, "Income", "p"⟩, ⟨⟨2025, 1, 2⟩, 3, "Expense", "q"⟩]).map
        Prod.fst
      = [⟨⟨2025, 1, 1⟩, 4, "Income", "p"⟩, ⟨⟨2025, 1, 2⟩, 3, "Expense", "q"⟩] :=
  c3_cumulative_balance.2
    [⟨⟨2025, 1, 1⟩, 4, "Income", "p"⟩, ⟨⟨2025, 1, 2⟩, 3, "Expense", "q"⟩]
    [⟨⟨2025, 1, 1⟩, 4, "Income", "p"⟩, ⟨⟨2025, 1, 2⟩, 3, "Expense", "q"⟩]
    (by
      refine List.pairwise_cons.mpr ⟨?_, List.pairwise_singleton _ _⟩
      intro t ht
      rw [List.mem_singleton] at ht
      subst ht
      show 2025 * 10000 + 1 * 100 + 1 < 2025 * 10000 + 1 * 100 + 2
      omega)
    ⟨List.Perm.refl _,
     by
      refine List.pairwise_cons.mpr ⟨?_, List.pairwise_singleton _ _⟩
      intro t ht
      rw [List.mem_singleton] at ht
      subst ht
      show 2025 * 10000 + 1 * 100 + 1 ≤ 2025 * 10000 + 1 * 100 + 2
      omega⟩

/-- C7: any stored row whose category is neither `Income` nor `Expense`
and whose date parses is loaded without error and appears in the result;
it is absent from the Income/Expense restriction of the result, and the
income and expense totals of the summary are unchanged when the result
is restricted to `Income`/`Expense` rows — every foreign-category row is
excluded from both sums. -/
theorem c7_foreign_category (f : FileModel) (r : RawRow) (dr : Date)
    (hmem : r ∈ csvDataRows (ensureInitialized f))
    (hr : parseDate r.date = some dr)
    (hinc : r.category ≠ "Income") (hexp : r.category ≠ "Expense") :
    ∃ res, get_transactions_df f none none = some res
      ∧ (⟨dr, r.amount, r.category, r.description⟩ : Transaction) ∈ res
      ∧ (⟨dr, r.amount, r.category, r.description⟩ : Transaction)
          ∉ res.filter (fun t =>
              t.category == "Income" || t.category == "Expense")
      ∧ totalIncome res
          = totalIncome (res.filter fun t =>
              t.category == "Income" || t.category == "Expense")
      ∧ totalExpense res
          = totalExpense (res.filter fun t =>
              t.category == "Income" || t.category == "Expense") := by
  refine ⟨_, load_none_eq f, ?_, ?_, ?_, ?_⟩
  · rw [List.mem_insertionSort]
    refine List.mem_filterMap.mpr ⟨r, hmem, ?_⟩
    rw [parseRow, hr]
    rfl
  · intro hmemf
    rcases List.mem_filter.mp hmemf with ⟨_, hcond⟩
    simp only [Bool.or_eq_true, beq_iff_eq] at hcond
    rcases hcond with h | h
    · exact hinc h
    · exact hexp h
  · unfold totalIncome
    rw [List.filter_filter]
    refine congrArg _ (congrArg _ (List.filter_congr ?_))
    intro t _
    by_cases h : t.category = "Income"
    · simp [h]
    · simp [h]
  · unfold totalExpense
    rw [List.filter_filter]
    refine congrArg _ (congrArg _ (List.filter_congr ?_))
    intro t _
    by_cases h : t.category = "Expense"
    · simp [h]
    · simp [h]

/-- C7 witness: a concrete file holding one `Transfer` row. -/
theorem c7_witness :
    ∃ res, get_transactions_df
        (some [Line.header headerCols, Line.row "19-12-2025" 9 "Transfer" "Move"])
        none none = some res
      ∧ (⟨⟨2025, 12, 19⟩, 9, "Transfer", "Move"⟩ : Transaction) ∈ res
      ∧ (⟨⟨2025, 12, 19⟩, 9, "Transfer", "Move"⟩ : Transaction)
          ∉ res.filter (fun t =>
              t.category == "Income" || t.category == "Expense")
      ∧ totalIncome res
          = totalIncome (res.filter fun t =>
              t.category == "Income" || t.category == "Expense")
      ∧ totalExpense res
          = totalExpense (res.filter fun t =>
              t.category == "Income" || t.category == "Expense") :=
  c7_foreign_category
    (some [Line.header headerCols, Line.row "19-12-2025" 9 "Transfer" "Move"])
    ⟨"19-12-2025", 9, "Transfer", "Move"⟩ ⟨2025, 12, 19⟩
    (by decide) rfl (by decide) (by decide)

set_option maxRecDepth 4000 in
/-- C5: appending a valid record to an initialized store makes every
record of any earlier load of the same parsable range still present, and
the appended record itself (amount unchanged) appear, in a subsequent
load whose range contains its date; concretely, appending
`19-12-2025, 42.50, Expense, Coffee` to a freshly initialized store and
loading `01-12-2025`-`31-12-2025` returns exactly that record with the
amount unchanged. -/
theorem c5_roundtrip :
    (∀ (x : Line) (xs : List Line) (r : RawRow) (s e : String)
        (ds de dr : Date) (prev : List Transaction),
        parseDate s = some ds → parseDate e = some de →
        parseDate r.date = some dr →
        ds.key ≤ dr.key → dr.key ≤ de.key →
        get_transactions_df (some (x :: xs)) (some s) (some e) = some prev →
        ∃ res, get_transactions_df
            (add_entry (some (x :: xs)) r.date r.amount r.category r.description)
            (some s) (some e) = some res
          ∧ (∀ t ∈ prev, t ∈ res)
          ∧ (⟨dr, r.amount, r.category, r.description⟩ : Transaction) ∈ res)
    ∧ (∀ a : ℚ,
        get_transactions_df
          (add_entry (ensureInitialized none) "19-12-2025" a "Expense" "Coffee")
          (some "01-12-2025") (some "31-12-2025")
        = some [⟨⟨2025, 12, 19⟩, a, "Expense", "Coffee"⟩]) := by
  constructor
  · intro x xs r s e ds de dr prev hs he hr hlo hhi hprev
    refine ⟨_, load_range_eq _ hs he, ?_, ?_⟩
    · intro t ht
      rw [load_range_eq _ hs he] at hprev
      have hprev' := Option.some.inj hprev
      rw [← hprev'] at ht
      rw [List.mem_insertionSort] at ht ⊢
      rw [csvDataRows_add_entry, List.filterMap_append, List.filter_append]
      exact List.mem_append_left _ ht
    · rw [List.mem_insertionSort]
      rw [csvDataRows_add_entry, List.filterMap_append, List.filter_append]
      apply List.mem_append_right
      have hpr : parseRow ⟨r.date, r.amount, r.category, r.description⟩
          = some ⟨dr, r.amount, r.category, r.description⟩ := by
        rw [parseRow]
        simp only
        rw [hr]
        rfl
      rw [List.filterMap_cons, hpr]
      simp [List.filter_cons, inRange, hlo, hhi]
  · intro a
    rw [load_range_eq _
      (show parseDate "01-12-2025" = some ⟨2025, 12, 1⟩ from rfl)
      (show parseDate "31-12-2025" = some ⟨2025, 12, 31⟩ from rfl)]
    have h1 : csvDataRows (ensureInitialized
        (add_entry (ensureInitialized none) "19-12-2025" a "Expense" "Coffee"))
        = [⟨"19-12-2025", a, "Expense", "Coffee"⟩] := rfl
    have hin : inRange ⟨2025, 12, 1⟩ ⟨2025, 12, 31⟩
        (⟨⟨2025, 12, 19⟩, a, "Expense", "Coffee"⟩ : Transaction) = true := by
      rw [inRange, Bool.and_eq_true]
      constructor
      · rw [decide_eq_true_eq]
        show 2025 * 10000 + 12 * 100 + 1 ≤ 2025 * 10000 + 12 * 100 + 19
        omega
      · rw [decide_eq_true_eq]
        show 2025 * 10000 + 12 * 100 + 19 ≤ 2025 * 10000 + 12 * 100 + 31
        omega
    rw [h1,
      List.filterMap_cons_some
        (show parseRow ⟨"19-12-2025", a, "Expense", "Coffee"⟩
          = some ⟨⟨2025, 12, 19⟩, a, "Expense", "Coffee"⟩ from rfl),
      List.filterMap_nil, List.filter_cons_of_pos hin, List.filter_nil]
    rfl

/-- C5 witness: the general statement applied to a header-only store and
a concrete record, and the concrete round trip at amount `42.50`. -/
theorem c5_witness :
    (∃ res, get_transactions_df
        (add_entry (some [Line.header headerCols]) "19-12-2025" 7 "Expense" "Tea")
        (some "01-12-2025") (some "31-12-2025") = some res
      ∧ (∀ t ∈ ([] : List Transaction), t ∈ res)
      ∧ (⟨⟨2025, 12, 19⟩, 7, "Expense", "Tea"⟩ : Transaction) ∈ res)
    ∧ get_transactions_df
        (add_entry (ensureInitialized none) "19-12-2025" (42.5 : ℚ) "Expense" "Coffee")
        (some "01-12-2025") (some "31-12-2025")
      = some [⟨⟨2025, 12, 19⟩, (42.5 : ℚ), "Expense", "Coffee"⟩] :=
  ⟨c5_roundtrip.1 (Line.header headerCols) [] ⟨"19-12-2025", 7, "Expense", "Tea"⟩
      "01-12-2025" "31-12-2025" ⟨2025, 12, 1⟩ ⟨2025, 12, 31⟩ ⟨2025, 12, 19⟩ []
      rfl rfl rfl
      (by show 2025 * 10000 + 12 * 100 + 1 ≤ 2025 * 10000 + 12 * 100 + 19; omega)
      (by show 2025 * 10000 + 12 * 100 + 19 ≤ 2025 * 10000 + 12 * 100 + 31; omega)
      rfl,
   c5_roundtrip.2 (42.5 : ℚ)⟩

end FinancePlanner
